import Mathlib

/-!
Verification development for the HTML-to-Markdown converter
(`js-packages/html-to-md/src/html-to-markdown.ts`).

The converter is a streaming token-driven transformation: it pulls tokens
from an external HTML scanner (the WASM `WP_HTML_Processor`, whose sources
are not part of this package; it is specified only through its capability
surface) and folds them into Markdown text through a small mutable state
{output accumulator, line buffer, list-context sequence, inline depth
counters, link capture slot, base URL}.

The embedding below mirrors the TypeScript source function by function.
JavaScript host primitives (`String.prototype.trim`, regex replaces,
`Intl.Segmenter`) are modelled explicitly; the locale-aware segmenters are
kept as parameters (`glen` for grapheme counting, `splitW` for word
segmentation) and an ASCII instantiation is provided for concrete runs.
-/

/-- Whitespace set of JavaScript `String.prototype.trim` /
`trimStart` (space, tab, LF, CR, VT, FF, NBSP, line/paragraph separator,
BOM). -/
def jsWsChar (c : Char) : Bool :=
  c = ' ' || c = '\t' || c = '\n' || c = '\r' ||
  c = Char.ofNat 11 || c = Char.ofNat 12 || c = Char.ofNat 0xa0 ||
  c = Char.ofNat 0x2028 || c = Char.ofNat 0x2029 || c = Char.ofNat 0xfeff

/-- Model of JavaScript `String.prototype.trim`. -/
def jsTrim (s : String) : String :=
  String.mk (((s.data.dropWhile jsWsChar).reverse.dropWhile jsWsChar).reverse)

/-- Model of JavaScript `String.prototype.trimStart`. -/
def jsTrimStart (s : String) : String :=
  String.mk (s.data.dropWhile jsWsChar)

/-- Model of JavaScript `String.prototype.repeat`. -/
def jsRepeat (s : String) (n : Nat) : String :=
  String.join (List.replicate n s)

/-- The invisible separator `"⁣"` used to bracket inline formatting
markers (`HtmlToMarkdown.SEP`). -/
def SEP : String := "⁣"

/-- The ASCII punctuation characters escaped by
`HtmlToMarkdown.escapeAsciiPunctuation` (the regex character class
`[!"#$%&'()*+,-./:;<=>?@[\\\]^_`{|}~]`). -/
def asciiPunctChars : List Char :=
  "!\"#$%&'()*+,-./:;<=>?@[\\]^_`\x7b|\x7d~".data

/-- `HtmlToMarkdown.escapeAsciiPunctuation`: backslash-escape every ASCII
punctuation character. -/
def escapeAsciiPunctuation (s : String) : String :=
  String.mk (s.data.flatMap fun c =>
    if c ∈ asciiPunctChars then ['\\', c] else [c])

/-- `HtmlToMarkdown.preprocessInputStream`: normalize CRLF / CR to LF
(the regex replace `/\r\n|\r/g` → `"\n"`). -/
def preprocessChars : List Char → List Char
  | [] => []
  | '\r' :: '\n' :: cs => '\n' :: preprocessChars cs
  | '\r' :: cs => '\n' :: preprocessChars cs
  | c :: cs => c :: preprocessChars cs

/-- String form of `preprocessInputStream`. -/
def preprocessInputStream (s : String) : String :=
  String.mk (preprocessChars s.data)

/-- Horizontal whitespace class `[ \t]` used by the `append` helper. -/
def isHT (c : Char) : Bool := c = ' ' || c = '\t'

/-- Newline class `[\n]`. -/
def isNL (c : Char) : Bool := c = '\n'

/-- Form feed or newline class `[\f\n]` used by the `append` helper. -/
def isFN (c : Char) : Bool := c = Char.ofNat 12 || c = '\n'

/-- Worker for the first replace of `append`. `pend` holds a pending run of
spaces/tabs (reversed) whose fate depends on the next character; `skip` is
set while consuming the remainder of a newline run that followed such a
pending run. -/
def chnAux : List Char → Bool → List Char → List Char
  | pend, _, [] => pend.reverse
  | pend, skip, c :: cs =>
    if skip ∧ c = '\n' then chnAux pend skip cs
    else if isHT c then chnAux (c :: pend) false cs
    else if c = '\n' then
      if pend.isEmpty then '\n' :: chnAux [] false cs
      else '\n' :: chnAux [] true cs
    else pend.reverse ++ c :: chnAux [] false cs

/-- First replace of `append`: `/[ \t]+\n+/g` → `"\n"` (a run of spaces and
tabs immediately followed by a run of newlines collapses to one newline; a
space/tab run not followed by a newline is kept verbatim). -/
def collapseHtNl (l : List Char) : List Char :=
  chnAux [] false l

/-- Worker for the second replace of `append`; the flag records whether the
previous character belonged to a space/tab run. -/
def chtAux : Bool → List Char → List Char
  | _, [] => []
  | prevHT, c :: cs =>
    if isHT c then
      if prevHT then chtAux true cs else ' ' :: chtAux true cs
    else c :: chtAux false cs

/-- Second replace of `append`: `/[ \t]+/g` → `" "`. -/
def collapseHt (l : List Char) : List Char :=
  chtAux false l

/-- Worker for the third replace of `append`; the flag records whether the
previous character belonged to a form-feed/newline run. -/
def cfnAux : Bool → List Char → List Char
  | _, [] => []
  | prevFN, c :: cs =>
    if isFN c then
      if prevFN then cfnAux true cs else '\n' :: cfnAux true cs
    else c :: cfnAux false cs

/-- Third replace of `append`: `/[\f\n]+/g` → `"\n"`. -/
def collapseFn (l : List Char) : List Char :=
  cfnAux false l

/-- The whitespace normalization the `append` helper applies to a chunk when
the current breadcrumbs do not include `PRE` (the three sequential regex
replaces). -/
def normalizeChunk (s : String) : String :=
  String.mk (collapseFn (collapseHt (collapseHtNl s.data)))

/-- The test `/^[ ]*[\n]+$/` applied to text tokens (pure inter-element
layout whitespace: optional spaces followed by one or more newlines). -/
def isLayoutWhitespace (s : String) : Bool :=
  let rest := s.data.dropWhile (· = ' ')
  !rest.isEmpty && rest.all (· = '\n')

/-- The test `/^\n+$/` applied to words inside the wrap loop of
`flushLine`. -/
def isNewlineRun (s : String) : Bool :=
  !s.data.isEmpty && s.data.all (· = '\n')

/-- The test `/^[,.?!]+$/.test(word.trim())` (trailing-punctuation words
glued to the previous content during wrapping). -/
def isPunctWord (s : String) : Bool :=
  let t := (jsTrim s).data
  !t.isEmpty && t.all (fun c => c = ',' || c = '.' || c = '?' || c = '!')

/-- `HtmlToMarkdown.listMarker`: marker for a list type and count.
Unordered lists pick from `"*+-"` by `count % 3`; ordered lists clamp the
count to `[1, 999999999]` and add a dot; any other list type falls through
to the empty string. -/
def listMarker (listType : String) (count : Nat) : String :=
  if listType = "-" then
    String.mk [("*+-".data).getD (count % 3) '*']
  else if listType = "decimal" then
    toString (max 1 (min count 999999999)) ++ "."
  else ""

/-- Character-level model of `String.prototype.startsWith`. -/
def strStartsWith (s pre : String) : Bool :=
  pre.data.isPrefixOf s.data

/-- Character-level model of `String.prototype.endsWith`. -/
def strEndsWith (s suf : String) : Bool :=
  suf.data.reverse.isPrefixOf s.data.reverse

/-- Character-level model of `String.prototype.toLowerCase` (ASCII). -/
def strToLower (s : String) : String :=
  String.mk (s.data.map Char.toLower)

/-- The absolute-scheme test of `HtmlToMarkdown.toUrl`
(the regex `/^(?:https?|mailto):\/\//`). -/
def hasAbsScheme (href : String) : Bool :=
  strStartsWith href "http://" || strStartsWith href "https://" ||
  strStartsWith href "mailto://"

/-- `HtmlToMarkdown.toUrl`: pass absolute-scheme URLs through unchanged;
otherwise concatenate onto the effective base (default `"/"`). -/
def toUrl (href : String) (baseUrl : String) : String :=
  if !hasAbsScheme href then
    (if baseUrl = "" then "/" else baseUrl) ++ href
  else href

/-- Worker for the tier-2 fallback strip. `pend` (reversed) holds the
characters since an unclosed `<`; a `>` discards the pending span, the end
of input emits it verbatim (the regex `<[^>]*>` needs a closing `>`). -/
def stripAux : Option (List Char) → List Char → List Char
  | none, [] => []
  | some pend, [] => pend.reverse
  | none, c :: cs =>
    if c = '<' then stripAux (some [c]) cs else c :: stripAux none cs
  | some pend, c :: cs =>
    if c = '>' then stripAux none cs else stripAux (some (c :: pend)) cs

/-- Tier 2 of `HtmlToMarkdown.fallback`: the regex strip
`html.replace(/<[^>]*>/g, "")`. -/
def stripTagsChars (l : List Char) : List Char :=
  stripAux none l

/-- String form of the tier-2 fallback strip. -/
def stripTags (s : String) : String :=
  String.mk (stripTagsChars s.data)

/-!
Token scanner model.

The scanner (`WP_HTML_Processor`, compiled from Rust to WASM) is external
to this package; only its capability surface is specified. A scanner run is
modelled as the data the converter can observe: the token sequence (each
token carrying the name, closer flag, breadcrumbs, attributes, modifiable
text and class list reported at that pause point), the last-error
indicator, and the breadcrumbs reported after the loop ends. Construction
failure is the `none` case of `Option Scanner`.
-/

/-- Modelled from the spec: result of the scanner's attribute lookup
(`get_attribute` returns a string, boolean `true` for a value-less
attribute, or null — null is modelled by absence from the list). -/
inductive AttrVal
  | str (v : String)
  | boolTrue
deriving DecidableEq, Repr

/-- Modelled from the spec: one token of the external scanner, carrying
everything the converter observes at that pause point. -/
structure Token where
  name : Option String
  isCloser : Bool
  breadcrumbs : List String
  attrs : List (String × AttrVal)
  text : String
  classList : List String
deriving DecidableEq, Repr

instance : Inhabited Token := ⟨⟨none, false, [], [], "", []⟩⟩

/-- Modelled from the spec: a successfully constructed scanner run. -/
structure Scanner where
  tokens : List Token
  lastError : Bool
  finalBreadcrumbs : List String
deriving DecidableEq, Repr

/-- Attribute lookup on a token (first match wins, as in HTML). -/
def getAttr (t : Token) (n : String) : Option AttrVal :=
  t.attrs.lookup n

/-- One entry of the flat `olCounts` array
(`Array<string | number>` in the source). -/
inductive OlVal
  | s (v : String)
  | n (v : Nat)
deriving DecidableEq, Repr

/-- Read `olCounts[i] as string`: the JavaScript cast does not convert, so
a number or out-of-range read yields a value the `listMarker` switch falls
through on; that situation is modelled by `none`. -/
def olStringAt (l : List OlVal) (i : Nat) : Option String :=
  match l.get? i with
  | some (.s v) => some v
  | _ => none

/-- Read `olCounts[i] as number`; a string or out-of-range read is modelled
by `none` (proved unreachable under the olCounts invariant). -/
def olNatAt (l : List OlVal) (i : Nat) : Option Nat :=
  match l.get? i with
  | some (.n v) => some v
  | _ => none

/-- The JavaScript update `olCounts[last] = (olCounts[last] as number) + 1`:
on a number it increments; on a string the JavaScript `+` would concatenate
(unreachable under the olCounts invariant, see the C10 theorem). -/
def incrOl : OlVal → OlVal
  | .n v => .n (v + 1)
  | .s v => .s (v ++ "1")

/-- Mutable state of one `HtmlToMarkdown.convert` call. -/
structure ConvState where
  md : String
  olCounts : List OlVal
  line : String
  lastAttrs : List (String × String)
  linkSwap : String
  emDepth : Int
  strongDepth : Int
  baseUrl : String
deriving DecidableEq, Repr

/-- Initial converter state (`baseUrl` is the function argument). -/
def initState (baseUrl : String) : ConvState :=
  ⟨"", [], "", [], "", 0, 0, baseUrl⟩

/-- Accumulator of the breadcrumb walk at the top of `flushLine`. -/
structure WalkAcc where
  firstPre : String
  linePre : String
  inPre : Bool
  noNewlines : Bool
  listDepth : Nat
deriving DecidableEq, Repr

/-- One step of the breadcrumb walk in `flushLine` (the `switch (tag)`
over the sliced breadcrumbs). `glen` models grapheme counting. -/
def walkStep (glen : String → Nat) (olCounts : List OlVal)
    (acc : WalkAcc) (tag : String) : WalkAcc :=
  if tag = "BLOCKQUOTE" then
    { acc with firstPre := acc.firstPre ++ "> ", linePre := acc.linePre ++ "> " }
  else if tag = "CODE" then
    if acc.inPre then
      { acc with firstPre := acc.firstPre ++ "    ", linePre := acc.linePre ++ "    " }
    else acc
  else if tag = "LI" then
    if acc.listDepth = 0 then acc
    else
      let ld := acc.listDepth - 1
      let marker :=
        match olStringAt olCounts (ld * 2) with
        | some lt =>
            listMarker lt
              (if lt = "-" then acc.listDepth else (olNatAt olCounts (ld * 2 + 1)).getD 0)
        | none => ""
      let indent := jsRepeat " " (glen marker)
      let fp :=
        if 2 * acc.listDepth ≠ olCounts.length then acc.firstPre ++ indent ++ " "
        else acc.firstPre ++ marker ++ " "
      { acc with firstPre := fp, linePre := acc.linePre ++ indent ++ " " }
  else if tag = "PRE" then { acc with inPre := true }
  else if tag = "H1" ∨ tag = "H2" ∨ tag = "H3" ∨ tag = "H4" ∨ tag = "H5" ∨ tag = "H6" then
    { acc with noNewlines := true }
  else if tag = "OL" ∨ tag = "UL" then { acc with listDepth := acc.listDepth + 1 }
  else acc

/-- The word-wrapping loop of `flushLine` (`for (let i = 0; ...)`),
accumulating onto `md`. State: output so far, `lineLength`, and whether the
index is still 0 (`first`). -/
def wrapGo (glen : String → Nat) (width : Nat) (firstPre linePre : String) :
    List String → String → Nat → Bool → String
  | [], md, _, _ => md
  | w :: ws, md, lineLength, first =>
    if isNewlineRun w then
      wrapGo glen width firstPre linePre ws
        (md ++ String.mk (w.data.take 1) ++ linePre) (glen linePre) false
    else
      let md1 := if first then md ++ firstPre else md
      let wordLength := glen w
      if width < wordLength + lineLength ∧ ¬(isPunctWord w = true) then
        wrapGo glen width firstPre linePre ws
          (md1 ++ "\n" ++ linePre ++ jsTrimStart w)
          (glen linePre + glen (jsTrimStart w)) false
      else
        wrapGo glen width firstPre linePre ws (md1 ++ w) (lineLength + wordLength) false

/-- The `flushLine` closure: walk the sliced breadcrumbs for prefixes and
flags, trim the buffer unless inside `PRE`, emit an unwrapped line when
under a heading, otherwise wrap the segmented words; always terminate with
one newline. Returns the new output accumulator (the line buffer is reset
to `""` by every caller). `splitW` models the locale-aware word segmenter;
the `filter` is the source's `.filter(Boolean)`. -/
def flushLine (glen : String → Nat) (splitW : String → List String) (width : Nat)
    (bc : List String) (olCounts : List OlVal) (md line : String) : String :=
  let acc := (bc.drop 2).foldl (walkStep glen olCounts) ⟨"", "", false, false, 0⟩
  let line1 := if !acc.inPre then jsTrim line else line
  if acc.noNewlines then md ++ acc.firstPre ++ line1 ++ "\n"
  else
    let words := (splitW line1).filter (fun w => w ≠ "")
    wrapGo glen width acc.firstPre acc.linePre words md (glen acc.firstPre) true ++ "\n"

/-- The `append` helper: whitespace-normalize the chunk unless the full
breadcrumbs include `PRE`, then append to the line buffer. -/
def appendChunk (inPreFull : Bool) (line chunk : String) : String :=
  if inPreFull then line ++ chunk else line ++ normalizeChunk chunk

/-- The `remember` helper: snapshot the named attributes of the current
tag (boolean `true` becomes `""`; absent attributes are not stored). -/
def remember (t : Token) (names : List String) : List (String × String) :=
  names.filterMap fun a =>
    match getAttr t a with
    | some (.str v) => some (a, v)
    | some .boolTrue => some (a, "")
    | none => none

/-- Lookup in the remembered attributes with the JavaScript
`lastAttrs[k] || ""` default. -/
def lookupAttr (l : List (String × String)) (k : String) : String :=
  (l.lookup k).getD ""

/-- JavaScript `scanner.get_attribute(n) || ""` followed by string coercion
(boolean `true` renders as `"true"` in a template literal). -/
def attrOrEmpty (t : Token) (n : String) : String :=
  match getAttr t n with
  | some (.str v) => v
  | some .boolTrue => "true"
  | none => ""

/-- JavaScript `typeof v === "string" ? v : ""` on an attribute value. -/
def attrIfString (t : Token) (n : String) : String :=
  match getAttr t n with
  | some (.str v) => v
  | _ => ""

/-- `HtmlToMarkdown.KNOWN_LANGUAGES`: the fixed known-language table for
code fences. -/
def KNOWN_LANGUAGES : List String :=
  ["apl", "asm", "assembly", "bash", "c", "c#", "c++", "clojure", "cobol",
   "cpp", "csharp", "css", "d", "dart", "elixir", "elm", "erlang", "f#",
   "fish", "fortran", "fsharp", "go", "groovy", "guile", "haskell", "html",
   "java", "javascript", "js", "julia", "kotlin", "less", "lisp", "lua",
   "matlab", "objectivec", "objective-c", "ocaml", "perl", "php",
   "powershell", "python", "python2", "python3", "r", "racket", "raku",
   "ruby", "rust", "sass", "scala", "scheme", "sgml", "sh", "shell", "sql",
   "swift", "typescript", "ts", "vba", "xml", "zsh"]

/-- The ordered attribute list scanned for a code-block language. -/
def langAttrNames : List String :=
  ["data-lang", "data-language", "data-codetag", "syntax",
   "data-programming-language", "type"]

/-- Language inference from class names: first class with a `language-`
prefix (rest taken) or contained in the known-language table wins. -/
def langFromClasses : List String → String
  | [] => ""
  | c :: rest =>
    let lower := strToLower c
    if strStartsWith lower "language-" then String.mk (lower.data.drop 9)
    else if lower ∈ KNOWN_LANGUAGES then lower
    else langFromClasses rest

/-- The repeated `lang = lang.trim(); if (!lang || lang.endsWith("`"))`
cleanup. -/
def cleanLang (lang : String) : String :=
  let l := jsTrim lang
  if l = "" ∨ strEndsWith l "`" then "" else l

/-- Language inference from the fixed attribute list: first attribute whose
string value trims to a known language wins. -/
def langFromAttrs (t : Token) : List String → String
  | [] => ""
  | a :: rest =>
    match getAttr t a with
    | some (.str v) =>
      let tv := jsTrim v
      if tv ∈ KNOWN_LANGUAGES then tv else langFromAttrs t rest
    | _ => langFromAttrs t rest

/-- Full language inference for a fenced code block opener. -/
def inferLang (t : Token) : String :=
  let lang1 := cleanLang (langFromClasses t.classList)
  let lang2 := if lang1 = "" then langFromAttrs t langAttrNames else lang1
  cleanLang lang2

/-- Heading level parsed from the tag name
(`parseInt(tokenName.substring(1), 10)`, the leading digits of the name
after the `H`; only ever applied to `H1`–`H6`). -/
def hLevel (n : String) : Nat :=
  ((n.data.drop 1).takeWhile Char.isDigit).foldl
    (fun a c => a * 10 + (c.toNat - 48)) 0

/-- Per-token dispatch of the conversion loop (`switch (tokenName)` in
`HtmlToMarkdown.convert`). Mirrors the source case by case; tags outside
the switch leave the state unchanged. -/
def processToken (glen : String → Nat) (splitW : String → List String)
    (width : Nat) (t : Token) (s : ConvState) : ConvState :=
  match t.name with
  | none => s
  | some tokenName =>
    let isCloser := t.isCloser
    let bc2 := t.breadcrumbs.drop 2
    let inPreFull := t.breadcrumbs.contains "PRE"
    if tokenName = "#text" then
      if isLayoutWhitespace t.text then s
      else if !(bc2.contains "PRE") then
        { s with line := appendChunk inPreFull s.line (escapeAsciiPunctuation t.text) }
      else { s with line := appendChunk inPreFull s.line t.text }
    else if tokenName = "A" then
      if isCloser then
        let url := toUrl (lookupAttr s.lastAttrs "href") s.baseUrl
        let escapedUrl := escapeAsciiPunctuation url
        let linkLabel := jsTrim s.line
        let title := lookupAttr s.lastAttrs "title"
        let titleCl :=
          if title ≠ "" then " \"" ++ escapeAsciiPunctuation title ++ "\"" else ""
        let linkText := "[" ++ linkLabel ++ "](" ++ escapedUrl ++ titleCl ++ ")"
        if url = "" then
          { s with line := appendChunk inPreFull s.linkSwap linkLabel }
        else
          { s with line := appendChunk inPreFull s.linkSwap linkText }
      else
        { s with lastAttrs := remember t ["href", "title"],
                 linkSwap := s.line, line := "" }
    else if tokenName = "B" ∨ tokenName = "STRONG" then
      let d := s.strongDepth + (if isCloser then -1 else 1)
      if (d = 1 ∧ ¬(isCloser = true)) ∨ (d = 0 ∧ isCloser = true) then
        let lf := if isCloser then "" else SEP
        let rf := if isCloser then SEP else ""
        { s with strongDepth := d,
                 line := appendChunk inPreFull s.line (lf ++ "**" ++ rf) }
      else { s with strongDepth := d }
    else if tokenName = "BASE" then
      if s.baseUrl ≠ "" then s
      else
        match getAttr t "href" with
        | some (.str href) =>
          let trimmedHref := jsTrim href
          if trimmedHref ≠ "" then { s with baseUrl := toUrl trimmedHref s.baseUrl }
          else s
        | _ => s
    else if tokenName = "BR" then
      let line1 := if s.line.length > 0 then appendChunk inPreFull s.line "  " else s.line
      { s with md := flushLine glen splitW width t.breadcrumbs s.olCounts s.md line1,
               line := "" }
    else if tokenName = "CODE" then
      if bc2.contains "PRE" then
        if isCloser then
          let md1 := flushLine glen splitW width t.breadcrumbs s.olCounts s.md s.line
          let line1 := appendChunk inPreFull "" "```"
          let md2 := flushLine glen splitW width t.breadcrumbs s.olCounts md1 line1
          let md3 := flushLine glen splitW width t.breadcrumbs s.olCounts md2 ""
          { s with md := md3, line := "" }
        else
          let md1 := flushLine glen splitW width t.breadcrumbs s.olCounts s.md s.line
          let line1 := appendChunk inPreFull "" "```"
          let lang := inferLang t
          let line2 := if lang ≠ "" then appendChunk inPreFull line1 lang else line1
          let md2 := flushLine glen splitW width t.breadcrumbs s.olCounts md1 line2
          { s with md := md2, line := "" }
      else { s with line := appendChunk inPreFull s.line "`" }
    else if tokenName = "H1" ∨ tokenName = "H2" ∨ tokenName = "H3" ∨
            tokenName = "H4" ∨ tokenName = "H5" ∨ tokenName = "H6" then
      if isCloser then
        let line1 := jsTrim s.line
        { s with md := flushLine glen splitW width t.breadcrumbs s.olCounts s.md line1,
                 line := "" }
      else
        let line1 := appendChunk inPreFull s.line "\n"
        let md1 := flushLine glen splitW width t.breadcrumbs s.olCounts s.md line1
        let line2 := appendChunk inPreFull "" (jsRepeat "#" (hLevel tokenName) ++ " ")
        { s with md := md1, line := line2 }
    else if tokenName = "HR" then
      let md1 := flushLine glen splitW width t.breadcrumbs s.olCounts s.md s.line
      let line1 := appendChunk inPreFull "" "***"
      let md2 := flushLine glen splitW width t.breadcrumbs s.olCounts md1 line1
      { s with md := md2, line := "" }
    else if tokenName = "I" ∨ tokenName = "EM" then
      let d := s.emDepth + (if isCloser then -1 else 1)
      if (d = 1 ∧ ¬(isCloser = true)) ∨ (d = 0 ∧ isCloser = true) then
        let lf := if isCloser then "" else SEP
        let rf := if isCloser then SEP else ""
        { s with emDepth := d,
                 line := appendChunk inPreFull s.line (lf ++ "_" ++ rf) }
      else { s with emDepth := d }
    else if tokenName = "IMG" then
      let alt := attrOrEmpty t "alt"
      let src := attrOrEmpty t "src"
      let url := toUrl (jsTrim src) s.baseUrl
      let escapedUrl := escapeAsciiPunctuation url
      let title := attrIfString t "title"
      let titleCl :=
        if title ≠ "" then " \"" ++ escapeAsciiPunctuation title ++ "\"" else ""
      let imgText := "![" ++ alt ++ "](" ++ escapedUrl ++ titleCl ++ ")"
      { s with line := appendChunk inPreFull s.line imgText }
    else if tokenName = "LI" then
      if isCloser then s
      else
        let md1 := flushLine glen splitW width t.breadcrumbs s.olCounts s.md s.line
        let ol1 :=
          if s.olCounts.length > 0 then
            s.olCounts.dropLast ++ [incrOl (s.olCounts.getLastD (.n 0))]
          else s.olCounts
        { s with md := md1, line := "", olCounts := ol1 }
    else if tokenName = "OL" then
      let md1 := flushLine glen splitW width t.breadcrumbs s.olCounts s.md s.line
      if isCloser then
        { s with md := md1, line := "", olCounts := s.olCounts.dropLast.dropLast }
      else
        { s with md := md1, line := "", olCounts := s.olCounts ++ [.s "decimal", .n 0] }
    else if tokenName = "UL" then
      let md1 := flushLine glen splitW width t.breadcrumbs s.olCounts s.md s.line
      if isCloser then
        { s with md := md1, line := "", olCounts := s.olCounts.dropLast.dropLast }
      else
        { s with md := md1, line := "", olCounts := s.olCounts ++ [.s "-", .n 0] }
    else if tokenName = "BLOCKQUOTE" ∨ tokenName = "P" then
      { s with md := flushLine glen splitW width t.breadcrumbs s.olCounts s.md s.line,
               line := "" }
    else s

/-- The main `while (scanner.next_token())` loop as a fold over the token
sequence. -/
def runLoop (glen : String → Nat) (splitW : String → List String) (width : Nat)
    (ts : List Token) (s : ConvState) : ConvState :=
  ts.foldl (fun st t => processToken glen splitW width t st) s

/-- Modelled from the spec: one token of the tier-1 fallback walk
(`WP_HTML_Tag_Processor`, external). -/
structure FbToken where
  name : Option String
  text : String
deriving DecidableEq, Repr

/-- Modelled from the spec: behaviour of the fallback's tag processor —
either a token walk (tier 1) or a thrown fault (tier 2, caught by the
`try`/`catch`). -/
inductive FallbackScanner
  | ok (tokens : List FbToken)
  | fail
deriving DecidableEq, Repr

/-- `HtmlToMarkdown.fallback`: tier 1 joins the text-node contents in
document order; if the tag processor faults, tier 2 strips `<...>` spans
from the raw input. Never raises. -/
def fallback (fb : FallbackScanner) (html : String) : String :=
  match fb with
  | .ok toks =>
    String.join (toks.filterMap fun t =>
      if t.name = some "#text" then some t.text else none)
  | .fail => stripTags html

/-- `HtmlToMarkdown.convert`: preprocess the input, run the token loop on a
constructed scanner (construction failure falls back on the preprocessed
input), then post-loop: a flagged error with accumulated output shorter
than 50 characters discards the output and falls back on the original
input; otherwise the remaining buffer is flushed and the trimmed
accumulator returned. `String.length` counts characters where JavaScript
counts UTF-16 units; the two agree away from astral code points. -/
def convert (sc : Option Scanner) (fb : FallbackScanner)
    (glen : String → Nat) (splitW : String → List String)
    (html baseUrl : String) (width : Nat) : String :=
  let pre := preprocessInputStream html
  match sc with
  | none => fallback fb pre
  | some scn =>
    let st := runLoop glen splitW width scn.tokens (initState baseUrl)
    if scn.lastError ∧ st.md.length < 50 then fallback fb html
    else
      jsTrim (flushLine glen splitW width scn.finalBreadcrumbs st.olCounts st.md st.line)

/-- Modelled from the spec: grapheme-cluster counting
(`Intl.Segmenter` granularity `grapheme`, a host API). On the ASCII and
BMP-without-combining-marks strings used in the concrete runs below, the
grapheme count equals the character count. -/
def asciiGlen (s : String) : Nat := s.length

/-- Character class for the ASCII word-segmentation model: 0 groups
alphanumeric runs, 1 groups space/tab runs, 2 is a single-character
segment. -/
def chClass (c : Char) : Nat :=
  if c.isAlphanum then 0 else if c = ' ' ∨ c = '\t' then 1 else 2

/-- Modelled from the spec: locale-aware word segmentation
(`Intl.Segmenter` granularity `word`, a host API). The ASCII model groups
alphanumeric runs and horizontal-whitespace runs and makes every other
character (punctuation, newline, separators) its own segment, matching the
segmenter on the ASCII strings used in the concrete runs below. -/
def wordsAux : List Char → List (List Char)
  | [] => []
  | c :: cs =>
    match wordsAux cs with
    | [] => [[c]]
    | [] :: gs => [c] :: gs
    | (d :: g) :: gs =>
      if chClass c = chClass d ∧ chClass c ≠ 2 then (c :: d :: g) :: gs
      else [c] :: (d :: g) :: gs

/-- String form of the ASCII word-segmentation model. -/
def asciiSplitWords (s : String) : List String :=
  (wordsAux s.data).map String.mk

/-- Convenience constructor for an opener token in concrete runs. -/
def mkOpener (n : String) (bc : List String) : Token :=
  ⟨some n, false, bc, [], "", []⟩

/-- Convenience constructor for a closer token in concrete runs. -/
def mkCloser (n : String) (bc : List String) : Token :=
  ⟨some n, true, bc, [], "", []⟩

/-- Convenience constructor for a text token in concrete runs. -/
def mkText (txt : String) (bc : List String) : Token :=
  ⟨some "#text", false, bc, [], txt, []⟩

/-- Convenience constructor for a scanner run that ends back at the
document root. -/
def mkScanner (ts : List Token) (err : Bool) : Scanner :=
  ⟨ts, err, ["HTML", "BODY"]⟩

/-- Conversion with the ASCII segmenter models, for concrete runs. -/
def convA (ts : List Token) (err : Bool) (baseUrl : String) (width : Nat) : String :=
  convert (some (mkScanner ts err)) .fail asciiGlen asciiSplitWords "" baseUrl width

/-!
Helper lemmas about the string model.
-/

/-- Appending the empty string on the left is the identity. -/
theorem strNilAppend (s : String) : "" ++ s = s := by
  cases s
  rfl

/-- Appending the empty string on the right is the identity. -/
theorem strAppendNil (s : String) : s ++ "" = s := by
  cases s with
  | mk data => show String.mk (data ++ []) = String.mk data
               rw [List.append_nil]

/-- String concatenation is associative. -/
theorem strAppendAssoc (a b c : String) : a ++ b ++ c = a ++ (b ++ c) := by
  cases a; cases b; cases c
  show String.mk _ = String.mk _
  rw [List.append_assoc]

/-- A string with an absolute scheme is nonempty. -/
theorem hasAbsScheme_ne_empty (href : String) (h : hasAbsScheme href = true) :
    href ≠ "" := by
  intro he
  subst he
  simp [hasAbsScheme, strStartsWith, List.isPrefixOf] at h

/-- A nonempty string has positive length. -/
theorem strLengthPos (s : String) (h : s ≠ "") : 0 < s.length := by
  cases s with
  | mk data =>
    cases data with
    | nil => exact absurd rfl h
    | cons c cs => simp [String.length]

/-- `toUrl` never returns the empty string: the resolved URL of an empty or
relative href starts with the nonempty base (default `"/"`), and an
absolute href is itself nonempty. -/
theorem toUrl_ne_empty (href baseUrl : String) : toUrl href baseUrl ≠ "" := by
  unfold toUrl
  cases hh : hasAbsScheme href with
  | true =>
    simpa using hasAbsScheme_ne_empty href hh
  | false =>
    simp only [Bool.not_false, if_pos]
    intro he
    have hlen := congrArg String.length he
    rw [String.length_append] at hlen
    have h1 : 0 < (if baseUrl = "" then "/" else baseUrl).length := by
      by_cases hb : baseUrl = ""
      · rw [if_pos hb]
        decide
      · rw [if_neg hb]
        exact strLengthPos baseUrl hb
    have h0 : ("" : String).length = 0 := rfl
    omega

/-!
Claim C5 — URL resolution.
-/

/-- C5: URL resolution returns the input unchanged for every href carrying
an absolute scheme marker (`http://`, `https://`, `mailto://`); every other
href — including the empty one — is concatenated onto the effective base,
which defaults to `"/"` when none is known, with no dot-segment
normalization or percent-encoding; in particular `a/b` with no base
resolves to `/a/b`. -/
theorem c5_url_resolution (href baseUrl : String) :
    (hasAbsScheme href = true → toUrl href baseUrl = href) ∧
    (hasAbsScheme href = false →
      toUrl href baseUrl = (if baseUrl = "" then "/" else baseUrl) ++ href) ∧
    toUrl "a/b" "" = "/a/b" := by
  refine ⟨fun h => ?_, fun h => ?_, by decide⟩
  · simp [toUrl, h]
  · simp [toUrl, h]

/-- Witness for C5 at concrete inputs. -/
theorem c5_url_resolution_witness :
    hasAbsScheme "http://x" = true ∧ toUrl "http://x" "b" = "http://x" ∧
    hasAbsScheme "a/b" = false ∧ toUrl "a/b" "" = "/a/b" :=
  ⟨by decide, (c5_url_resolution "http://x" "b").1 (by decide), by decide,
   (c5_url_resolution "a/b" "").2.2⟩

/-!
Claim C4 — closing an `A` tag with an empty captured href.
-/

/-- Scanner run for `<a>x</a>` (anchor with no `href` attribute, so the
captured href is empty). -/
def c4Tokens : List Token :=
  [mkOpener "A" ["HTML", "BODY", "A"],
   mkText "x" ["HTML", "BODY", "A", "#text"],
   mkCloser "A" ["HTML", "BODY", "A"]]

/-- C4: closing an `A` tag whose captured href is empty does NOT append the
label alone: the empty href resolves through `toUrl` to the nonempty base
`"/"`, the emptiness test is applied to that resolved URL, so the converter
emits `[x](\/)`; the label-alone branch is dead code because `toUrl` never
returns the empty string. -/
theorem c4_empty_href_not_label_alone :
    convA c4Tokens false "" 80 = "[x](\\/)" ∧
    ("[x](\\/)" : String) ≠ "x" ∧
    toUrl "" "" = "/" ∧
    (∀ href baseUrl : String, toUrl href baseUrl ≠ "") :=
  ⟨by decide, by decide, by decide, toUrl_ne_empty⟩

/-!
Claim C3 — BR and the two-space hard break.
-/

/-- Scanner run for `a<br>b`. -/
def c3Tokens : List Token :=
  [mkText "a" ["HTML", "BODY", "#text"],
   mkOpener "BR" ["HTML", "BODY", "BR"],
   mkText "b" ["HTML", "BODY", "#text"]]

/-- C3: on a BR token with a nonempty buffer the source passes two spaces
to `append`, but outside `PRE` the `append` normalization collapses them to
a single space (`/[ \t]+/ → " "`), and `flushLine` then trims the buffer,
so no Markdown hard-break survives: `a<br>b` converts to `a\nb`, not to
`a  \nb`. -/
theorem c3_br_two_spaces_collapsed :
    normalizeChunk "  " = " " ∧
    appendChunk false "a" "  " = "a " ∧
    jsTrim "a " = "a" ∧
    convA c3Tokens false "" 80 = "a\nb" ∧
    ("a\nb" : String) ≠ "a  \nb" := by decide

/-!
Claim C2 — unordered list markers.
-/

/-- Scanner run for three sibling top-level two-item unordered lists
`<ul><li>a<li>b</ul><ul><li>c<li>d</ul><ul><li>e<li>f</ul>`. -/
def c2Tokens : List Token :=
  [mkOpener "UL" ["HTML", "BODY", "UL"],
   mkOpener "LI" ["HTML", "BODY", "UL", "LI"],
   mkText "a" ["HTML", "BODY", "UL", "LI", "#text"],
   mkOpener "LI" ["HTML", "BODY", "UL", "LI"],
   mkText "b" ["HTML", "BODY", "UL", "LI", "#text"],
   mkCloser "UL" ["HTML", "BODY", "UL"],
   mkOpener "UL" ["HTML", "BODY", "UL"],
   mkOpener "LI" ["HTML", "BODY", "UL", "LI"],
   mkText "c" ["HTML", "BODY", "UL", "LI", "#text"],
   mkOpener "LI" ["HTML", "BODY", "UL", "LI"],
   mkText "d" ["HTML", "BODY", "UL", "LI", "#text"],
   mkCloser "UL" ["HTML", "BODY", "UL"],
   mkOpener "UL" ["HTML", "BODY", "UL"],
   mkOpener "LI" ["HTML", "BODY", "UL", "LI"],
   mkText "e" ["HTML", "BODY", "UL", "LI", "#text"],
   mkOpener "LI" ["HTML", "BODY", "UL", "LI"],
   mkText "f" ["HTML", "BODY", "UL", "LI", "#text"],
   mkCloser "UL" ["HTML", "BODY", "UL"]] 

/-- C2: the unordered list marker is selected by nesting depth, not by the
count of sibling lists: `flushLine` passes `listDepth` to `listMarker` for
the `"-"` kind, so the flush result is independent of the stored counter,
every depth-1 unordered item gets the marker `+` (`"*+-"[1 % 3]`), and the
three sibling top-level lists all render with `+`, never rotating through
`*`, `+`, `-`. -/
theorem c2_markers_select_by_depth :
    convA c2Tokens false "" 80 = "+ a\nb\n\n\n+ c\nd\n\n\n+ e\nf" ∧
    listMarker "-" 1 = "+" ∧
    (∀ c1 c2 md line : _,
      flushLine asciiGlen asciiSplitWords 80 ["HTML", "BODY", "UL", "LI"]
        [OlVal.s "-", OlVal.n c1] md line =
      flushLine asciiGlen asciiSplitWords 80 ["HTML", "BODY", "UL", "LI"]
        [OlVal.s "-", OlVal.n c2] md line) := by
  refine ⟨by decide, by decide, fun c1 c2 md line => ?_⟩
  have hacc : ∀ c : Nat,
      List.foldl (walkStep asciiGlen [OlVal.s "-", OlVal.n c])
        ⟨"", "", false, false, 0⟩ (["HTML", "BODY", "UL", "LI"].drop 2) =
        (⟨"+ ", "  ", false, false, 1⟩ : WalkAcc) := fun c => rfl
  simp only [flushLine]
  rw [hacc c1, hacc c2]

/-!
Per-token effect lemmas: how one dispatch step changes the inline depth
counters and the list-context sequence.
-/

/-- Contribution of one token to the `strong` depth counter: ±1 on
`B`/`STRONG`, 0 otherwise. -/
def tokenStrongDelta (t : Token) : Int :=
  if t.name = some "B" ∨ t.name = some "STRONG" then
    (if t.isCloser then -1 else 1)
  else 0

/-- Contribution of one token to the `em` depth counter: ±1 on `I`/`EM`,
0 otherwise. -/
def tokenEmDelta (t : Token) : Int :=
  if t.name = some "I" ∨ t.name = some "EM" then
    (if t.isCloser then -1 else 1)
  else 0

/-- Effect of one token on the flat `olCounts` sequence: `OL`/`UL` push a
(kind, 0) pair or pop the last pair, an `LI` opener increments the last
entry, and every other token leaves the sequence unchanged. -/
def olStep (t : Token) (ol : List OlVal) : List OlVal :=
  if t.name = some "OL" then
    (if t.isCloser then ol.dropLast.dropLast else ol ++ [.s "decimal", .n 0])
  else if t.name = some "UL" then
    (if t.isCloser then ol.dropLast.dropLast else ol ++ [.s "-", .n 0])
  else if t.name = some "LI" then
    (if t.isCloser then ol
     else if ol.length > 0 then ol.dropLast ++ [incrOl (ol.getLastD (.n 0))]
     else ol)
  else ol

/-- One dispatch step changes `strongDepth` by exactly `tokenStrongDelta`,
`emDepth` by exactly `tokenEmDelta`, and `olCounts` by exactly `olStep`;
no other branch of the switch touches them. -/
theorem processToken_effects (glen : String → Nat) (splitW : String → List String)
    (width : Nat) (t : Token) (s : ConvState) :
    (processToken glen splitW width t s).strongDepth = s.strongDepth + tokenStrongDelta t ∧
    (processToken glen splitW width t s).emDepth = s.emDepth + tokenEmDelta t ∧
    (processToken glen splitW width t s).olCounts = olStep t s.olCounts := by
  cases hn : t.name with
  | none => simp [processToken, hn, tokenStrongDelta, tokenEmDelta, olStep]
  | some n =>
    simp only [processToken, hn]
    by_cases h1 : n = "#text"
    · subst h1
      rw [if_pos rfl]
      (try split_ifs) <;> (try split) <;> (try split_ifs) <;>
        simp_all [tokenStrongDelta, tokenEmDelta, olStep]
    rw [if_neg h1]
    by_cases h2 : n = "A"
    · subst h2
      rw [if_pos rfl]
      (try split_ifs) <;> (try split) <;> (try split_ifs) <;>
        simp_all [tokenStrongDelta, tokenEmDelta, olStep]
    rw [if_neg h2]
    by_cases h3 : n = "B" ∨ n = "STRONG"
    · rcases h3 with hx | hx <;> subst hx <;> rw [if_pos (by decide)] <;>
        (try split_ifs) <;> (try split) <;> (try split_ifs) <;>
        simp_all [tokenStrongDelta, tokenEmDelta, olStep]
    rw [if_neg h3]
    by_cases h4 : n = "BASE"
    · subst h4
      rw [if_pos rfl]
      (try split_ifs) <;> (try split) <;> (try split_ifs) <;>
        simp_all [tokenStrongDelta, tokenEmDelta, olStep]
    rw [if_neg h4]
    by_cases h5 : n = "BR"
    · subst h5
      rw [if_pos rfl]
      (try split_ifs) <;> (try split) <;> (try split_ifs) <;>
        simp_all [tokenStrongDelta, tokenEmDelta, olStep]
    rw [if_neg h5]
    by_cases h6 : n = "CODE"
    · subst h6
      rw [if_pos rfl]
      (try split_ifs) <;> (try split) <;> (try split_ifs) <;>
        simp_all [tokenStrongDelta, tokenEmDelta, olStep]
    rw [if_neg h6]
    by_cases h7 : n = "H1" ∨ n = "H2" ∨ n = "H3" ∨ n = "H4" ∨ n = "H5" ∨ n = "H6"
    · rcases h7 with hx | hx | hx | hx | hx | hx <;> subst hx <;> rw [if_pos (by decide)] <;>
        (try split_ifs) <;> (try split) <;> (try split_ifs) <;>
        simp_all [tokenStrongDelta, tokenEmDelta, olStep]
    rw [if_neg h7]
    by_cases h8 : n = "HR"
    · subst h8
      rw [if_pos rfl]
      (try split_ifs) <;> (try split) <;> (try split_ifs) <;>
        simp_all [tokenStrongDelta, tokenEmDelta, olStep]
    rw [if_neg h8]
    by_cases h9 : n = "I" ∨ n = "EM"
    · rcases h9 with hx | hx <;> subst hx <;> rw [if_pos (by decide)] <;>
        (try split_ifs) <;> (try split) <;> (try split_ifs) <;>
        simp_all [tokenStrongDelta, tokenEmDelta, olStep]
    rw [if_neg h9]
    by_cases h10 : n = "IMG"
    · subst h10
      rw [if_pos rfl]
      (try split_ifs) <;> (try split) <;> (try split_ifs) <;>
        simp_all [tokenStrongDelta, tokenEmDelta, olStep]
    rw [if_neg h10]
    by_cases h11 : n = "LI"
    · subst h11
      rw [if_pos rfl]
      (try split_ifs) <;> (try split) <;> (try split_ifs) <;>
        simp_all [tokenStrongDelta, tokenEmDelta, olStep]
    rw [if_neg h11]
    by_cases h12 : n = "OL"
    · subst h12
      rw [if_pos rfl]
      (try split_ifs) <;> (try split) <;> (try split_ifs) <;>
        simp_all [tokenStrongDelta, tokenEmDelta, olStep]
    rw [if_neg h12]
    by_cases h13 : n = "UL"
    · subst h13
      rw [if_pos rfl]
      (try split_ifs) <;> (try split) <;> (try split_ifs) <;>
        simp_all [tokenStrongDelta, tokenEmDelta, olStep]
    rw [if_neg h13]
    by_cases h14 : n = "BLOCKQUOTE" ∨ n = "P"
    · rcases h14 with hx | hx <;> subst hx <;> rw [if_pos (by decide)] <;>
        (try split_ifs) <;> (try split) <;> (try split_ifs) <;>
        simp_all [tokenStrongDelta, tokenEmDelta, olStep]
    rw [if_neg h14]
    simp [tokenStrongDelta, tokenEmDelta, olStep, hn, h1, h2, h3, h4, h5, h6, h7, h8, h9, h10, h11, h12, h13, h14]

/-!
Claim C6 — inline depth counters.
-/

/-- C6 counterexample: a single unbalanced closing `B` (resp. `EM`) token
drives the strong (resp. emphasis) depth counter to `-1`; nothing clamps it
at zero. -/
theorem c6_counterexample :
    (runLoop asciiGlen asciiSplitWords 80 [mkCloser "B" ["HTML", "BODY"]]
      (initState "")).strongDepth = -1 ∧
    (runLoop asciiGlen asciiSplitWords 80 [mkCloser "EM" ["HTML", "BODY"]]
      (initState "")).emDepth = -1 := by decide

/-- C6 (amended): the emphasis and strong depth counters are not clamped;
after any token sequence each equals its signed sum of openers minus
closers (so an unbalanced closer makes it negative, as the counterexample
shows at `-1`). -/
theorem c6_depth_counters_track_sums (glen : String → Nat)
    (splitW : String → List String) (width : Nat)
    (ts : List Token) (s : ConvState) :
    (runLoop glen splitW width ts s).strongDepth =
      s.strongDepth + (ts.map tokenStrongDelta).sum ∧
    (runLoop glen splitW width ts s).emDepth =
      s.emDepth + (ts.map tokenEmDelta).sum := by
  induction ts generalizing s with
  | nil => simp [runLoop]
  | cons t ts ih =>
    have he := processToken_effects glen splitW width t s
    have ih' := ih (processToken glen splitW width t s)
    simp only [runLoop, List.foldl] at ih' ⊢
    simp only [List.map_cons, List.sum_cons]
    constructor
    · rw [ih'.1, he.1]
      omega
    · rw [ih'.2, he.2.1]
      omega

/-!
Claim C7 — strong markers at boundary transitions only.
-/

/-- Scanner run for `<b>x<b>y</b>z</b>`. -/
def c7Tokens : List Token :=
  [mkOpener "B" ["HTML", "BODY", "B"],
   mkText "x" ["HTML", "BODY", "B", "#text"],
   mkOpener "B" ["HTML", "BODY", "B", "B"],
   mkText "y" ["HTML", "BODY", "B", "B", "#text"],
   mkCloser "B" ["HTML", "BODY", "B", "B"],
   mkText "z" ["HTML", "BODY", "B", "#text"],
   mkCloser "B" ["HTML", "BODY", "B"]]

/-- C7: a `**` marker (bracketed by the invisible separator) is appended
exactly at the depth transitions 0→1 (opener) and 1→0 (closer) of the
strong counter; any other `B`/`STRONG` token leaves the line unchanged, so
nested same-kind tags collapse and `<b>x<b>y</b>z</b>` yields exactly one
`**…**` pair wrapping `xyz`. -/
theorem c7_strong_marker_transitions (glen : String → Nat)
    (splitW : String → List String) (width : Nat) (t : Token) (s : ConvState)
    (h : t.name = some "B" ∨ t.name = some "STRONG") :
    (processToken glen splitW width t s).line =
      s.line ++
        (if t.isCloser = false ∧ s.strongDepth = 0 then SEP ++ "**"
         else if t.isCloser = true ∧ s.strongDepth = 1 then "**" ++ SEP
         else "") ∧
    convA c7Tokens false "" 80 = SEP ++ "**xyz**" ++ SEP := by
  refine ⟨?_, by decide⟩
  rcases h with h | h <;>
    (simp only [processToken, h]
     rw [if_neg (by decide), if_neg (by decide), if_pos (by decide)]
     cases hc : t.isCloser
     · simp only [hc]
       norm_num
       have hiff : (s.strongDepth + 1 = 1) ↔ (s.strongDepth = 0) := by omega
       try simp only [hiff]
       by_cases hs : s.strongDepth = 0
       · rw [if_pos hs, if_pos hs]
         dsimp only
         unfold appendChunk
         split_ifs <;> exact congrArg (s.line ++ ·) (by decide)
       · rw [if_neg hs, if_neg hs]
         dsimp only
         exact (strAppendNil s.line).symm
     · simp only [hc]
       norm_num
       have hiff : (s.strongDepth + -1 = 0) ↔ (s.strongDepth = 1) := by omega
       try simp only [hiff]
       by_cases hs : s.strongDepth = 1
       · rw [if_pos hs, if_pos hs]
         dsimp only
         unfold appendChunk
         split_ifs <;> exact congrArg (s.line ++ ·) (by decide)
       · rw [if_neg hs, if_neg hs]
         dsimp only
         exact (strAppendNil s.line).symm)

/-- Witness for C7: the transition rule applied to a concrete opener token
in the initial state. -/
theorem c7_strong_marker_transitions_witness :
    (processToken asciiGlen asciiSplitWords 80
        (mkOpener "B" ["HTML", "BODY", "B"]) (initState "")).line =
      (initState "").line ++
        (if (mkOpener "B" ["HTML", "BODY", "B"]).isCloser = false ∧
            (initState "").strongDepth = 0 then SEP ++ "**"
         else if (mkOpener "B" ["HTML", "BODY", "B"]).isCloser = true ∧
            (initState "").strongDepth = 1 then "**" ++ SEP
         else "") ∧
    convA c7Tokens false "" 80 = SEP ++ "**xyz**" ++ SEP :=
  c7_strong_marker_transitions asciiGlen asciiSplitWords 80
    (mkOpener "B" ["HTML", "BODY", "B"]) (initState "") (Or.inl rfl)
/-!
Claims C1 and C9 — totality, error routing and the post-loop step.
-/

/-- Text of the C1 counterexample paragraph. -/
def c1Text : String := "hello, this is a sufficiently long paragraph of text"

/-- Raw HTML of the C1 counterexample. -/
def c1Html : String := "<p>" ++ c1Text ++ "</p>"

/-- Scanner run for the C1 counterexample: one paragraph, flushed before
the scanner bails with its error indicator set. -/
def c1Tokens : List Token :=
  [mkOpener "P" ["HTML", "BODY", "P"],
   mkText c1Text ["HTML", "BODY", "P", "#text"],
   mkCloser "P" ["HTML", "BODY", "P"]]

/-- C1 counterexample: a scanner run that flags a parse error after
accumulating at least 50 characters of output does NOT return a fallback
result: the converter returns the accumulated (escaped) markdown, which
differs from the fallback extraction on both the original and the
preprocessed input, refuting the claim that every scanner parse error
routes to the fallback. -/
theorem c1_counterexample :
    (mkScanner c1Tokens true).lastError = true ∧
    50 ≤ (runLoop asciiGlen asciiSplitWords 80 c1Tokens (initState "")).md.length ∧
    convert (some (mkScanner c1Tokens true)) .fail asciiGlen asciiSplitWords
        c1Html "" 80 =
      "hello\\, this is a sufficiently long paragraph of text" ∧
    convert (some (mkScanner c1Tokens true)) .fail asciiGlen asciiSplitWords
        c1Html "" 80 ≠ fallback .fail c1Html ∧
    convert (some (mkScanner c1Tokens true)) .fail asciiGlen asciiSplitWords
        c1Html "" 80 ≠ fallback .fail (preprocessInputStream c1Html) := by
  decide

/-- C1 (amended): conversion is a total function of the input and the
scanner behaviour — it always returns a string and no failure propagates.
Scanner construction failure returns the fallback of the preprocessed
input; a flagged parse error returns the fallback of the original input
exactly when the accumulated output is shorter than 50 characters, and
otherwise the flushed, trimmed accumulator itself. -/
theorem c1_conversion_total (fb : FallbackScanner) (glen : String → Nat)
    (splitW : String → List String) (html baseUrl : String) (width : Nat) :
    convert none fb glen splitW html baseUrl width =
      fallback fb (preprocessInputStream html) ∧
    (∀ scn : Scanner,
      (scn.lastError = true →
        (runLoop glen splitW width scn.tokens (initState baseUrl)).md.length < 50 →
        convert (some scn) fb glen splitW html baseUrl width = fallback fb html) ∧
      (¬(scn.lastError = true ∧
          (runLoop glen splitW width scn.tokens (initState baseUrl)).md.length < 50) →
        convert (some scn) fb glen splitW html baseUrl width =
          jsTrim (flushLine glen splitW width scn.finalBreadcrumbs
            (runLoop glen splitW width scn.tokens (initState baseUrl)).olCounts
            (runLoop glen splitW width scn.tokens (initState baseUrl)).md
            (runLoop glen splitW width scn.tokens (initState baseUrl)).line))) := by
  refine ⟨rfl, fun scn => ⟨fun he hlen => ?_, fun hneg => ?_⟩⟩
  · simp only [convert]
    rw [if_pos ⟨he, hlen⟩]
  · simp only [convert]
    rw [if_neg hneg]

/-- Scanner run for the C9 concrete instance: a short paragraph whose
accumulated output stays below the 50-character threshold. -/
def c9Tokens : List Token :=
  [mkOpener "P" ["HTML", "BODY", "P"],
   mkText "hi, x" ["HTML", "BODY", "P", "#text"],
   mkCloser "P" ["HTML", "BODY", "P"]]

/-- Witness for C1 (amended) at concrete inputs. -/
theorem c1_conversion_total_witness :
    convert none .fail asciiGlen asciiSplitWords "<i>hi" "" 80 =
      fallback .fail (preprocessInputStream "<i>hi") ∧
    convert (some (mkScanner c9Tokens true)) .fail asciiGlen asciiSplitWords
        "zz<b>q" "" 80 = fallback .fail "zz<b>q" :=
  ⟨(c1_conversion_total .fail asciiGlen asciiSplitWords "<i>hi" "" 80).1,
   ((c1_conversion_total .fail asciiGlen asciiSplitWords "zz<b>q" "" 80).2
      (mkScanner c9Tokens true)).1 (by decide) (by decide)⟩

/-- C9: after the token loop, a set error indicator with accumulated output
below the 50-character threshold discards all accumulated output and
invokes the fallback on the original, unpreprocessed input; in every other
case — no error indicator, or an error indicator with output at or above
the threshold — the remaining buffer is flushed through `flushLine` and the
trimmed accumulator is returned. The concrete conjuncts show a run whose
nonempty accumulated output is discarded in favour of the tier-2 strip of
the raw input. -/
theorem c9_postloop_behaviour (fb : FallbackScanner) (glen : String → Nat)
    (splitW : String → List String) (html baseUrl : String) (width : Nat)
    (scn : Scanner) :
    (scn.lastError = true →
      (runLoop glen splitW width scn.tokens (initState baseUrl)).md.length < 50 →
      convert (some scn) fb glen splitW html baseUrl width = fallback fb html) ∧
    (¬(scn.lastError = true ∧
        (runLoop glen splitW width scn.tokens (initState baseUrl)).md.length < 50) →
      convert (some scn) fb glen splitW html baseUrl width =
        jsTrim (flushLine glen splitW width scn.finalBreadcrumbs
          (runLoop glen splitW width scn.tokens (initState baseUrl)).olCounts
          (runLoop glen splitW width scn.tokens (initState baseUrl)).md
          (runLoop glen splitW width scn.tokens (initState baseUrl)).line)) ∧
    (runLoop asciiGlen asciiSplitWords 80 c9Tokens (initState "")).md = "\nhi\\, x\n" ∧
    convert (some (mkScanner c9Tokens true)) .fail asciiGlen asciiSplitWords
      "zz<b>q" "" 80 = "zzq" ∧
    stripTags "zz<b>q" = "zzq" := by
  refine ⟨fun he hlen => ?_, fun hne => ?_, by decide, by decide, by decide⟩
  · simp only [convert]
    rw [if_pos ⟨he, hlen⟩]
  · simp only [convert]
    rw [if_neg hne]

/-- Witness for C9 at concrete inputs (an error-and-short run discarding
to the fallback; an error-free run returning the trimmed flush; and an
error run with output at the threshold, also returning the trimmed
flush). -/
theorem c9_postloop_behaviour_witness :
    convert (some (mkScanner c9Tokens true)) .fail asciiGlen asciiSplitWords
      "zz<b>q" "" 80 = fallback .fail "zz<b>q" ∧
    convert (some (mkScanner c9Tokens false)) .fail asciiGlen asciiSplitWords
      "zz<b>q" "" 80 =
      jsTrim (flushLine asciiGlen asciiSplitWords 80
        (mkScanner c9Tokens false).finalBreadcrumbs
        (runLoop asciiGlen asciiSplitWords 80 (mkScanner c9Tokens false).tokens
          (initState "")).olCounts
        (runLoop asciiGlen asciiSplitWords 80 (mkScanner c9Tokens false).tokens
          (initState "")).md
        (runLoop asciiGlen asciiSplitWords 80 (mkScanner c9Tokens false).tokens
          (initState "")).line) ∧
    convert (some (mkScanner c1Tokens true)) .fail asciiGlen asciiSplitWords
      c1Html "" 80 =
      jsTrim (flushLine asciiGlen asciiSplitWords 80
        (mkScanner c1Tokens true).finalBreadcrumbs
        (runLoop asciiGlen asciiSplitWords 80 (mkScanner c1Tokens true).tokens
          (initState "")).olCounts
        (runLoop asciiGlen asciiSplitWords 80 (mkScanner c1Tokens true).tokens
          (initState "")).md
        (runLoop asciiGlen asciiSplitWords 80 (mkScanner c1Tokens true).tokens
          (initState "")).line) :=
  ⟨(c9_postloop_behaviour .fail asciiGlen asciiSplitWords "zz<b>q" "" 80
      (mkScanner c9Tokens true)).1 (by decide) (by decide),
   ((c9_postloop_behaviour .fail asciiGlen asciiSplitWords "zz<b>q" "" 80
      (mkScanner c9Tokens false)).2).1 (by decide),
   ((c9_postloop_behaviour .fail asciiGlen asciiSplitWords c1Html "" 80
      (mkScanner c1Tokens true)).2).1 (by decide)⟩

/-!
Claim C8 — line wrapping. The wrap loop of `flushLine` (`wrapGo`) is
mirrored by a lines-level function `linesAux` (the segments between the
newlines it emits), tied to it by `wrapGo_eq_linesJoin`, and each produced
line is characterized by `ExcusedLine`.
-/

/-- Join a list of lines with single newlines (no trailing newline). -/
def linesJoin : List String → String
  | [] => ""
  | [a] => a
  | a :: rest => a ++ "\n" ++ linesJoin rest

/-- Lines-level mirror of the wrap loop `wrapGo`: the same recursion, but
returning the list of emitted lines (the current line is `cur`) instead of
the flat text. -/
def linesAux (glen : String → Nat) (width : Nat) (firstPre linePre : String) :
    List String → String → Nat → Bool → List String
  | [], cur, _, _ => [cur]
  | w :: ws, cur, lineLength, first =>
    if isNewlineRun w then
      cur :: linesAux glen width firstPre linePre ws linePre (glen linePre) false
    else
      let cur1 := if first then cur ++ firstPre else cur
      let wordLength := glen w
      if width < wordLength + lineLength ∧ ¬(isPunctWord w = true) then
        cur1 :: linesAux glen width firstPre linePre ws
          (linePre ++ jsTrimStart w) (glen linePre + glen (jsTrimStart w)) false
      else
        linesAux glen width firstPre linePre ws (cur1 ++ w)
          (lineLength + wordLength) false

/-- The lines mirror never returns an empty list. -/
theorem linesAux_ne_nil (glen : String → Nat) (width : Nat) (fp pp : String) :
    ∀ (ws : List String) (cur : String) (ll : Nat) (first : Bool),
      linesAux glen width fp pp ws cur ll first ≠ [] := by
  intro ws
  induction ws with
  | nil => intro cur ll first; simp [linesAux]
  | cons w ws ih =>
    intro cur ll first
    simp only [linesAux]
    split_ifs <;> first | exact List.cons_ne_nil _ _ | exact ih _ _ _

/-- Joining a nonempty tail prepends the head line and a newline. -/
theorem linesJoin_cons (a : String) (L : List String) (h : L ≠ []) :
    linesJoin (a :: L) = a ++ "\n" ++ linesJoin L := by
  cases L with
  | nil => exact absurd rfl h
  | cons b bs => rfl

/-- The first character of a newline-run word is a newline. -/
theorem newlineRunTake (w : String) (h : isNewlineRun w = true) :
    String.mk (w.data.take 1) = "\n" := by
  cases w with
  | mk data =>
    cases data with
    | nil => simp [isNewlineRun] at h
    | cons c cs =>
      simp only [isNewlineRun, List.isEmpty_cons, Bool.not_false, Bool.true_and,
        List.all_cons, Bool.and_eq_true, decide_eq_true_eq] at h
      rw [List.take, List.take]
      rw [h.1]

/-- The wrap loop only appends to its output accumulator. -/
theorem wrapGo_md (glen : String → Nat) (width : Nat) (fp pp : String) :
    ∀ (ws : List String) (md : String) (ll : Nat) (first : Bool),
      wrapGo glen width fp pp ws md ll first =
        md ++ wrapGo glen width fp pp ws "" ll first := by
  intro ws
  induction ws with
  | nil => intro md ll first; exact (strAppendNil md).symm
  | cons w ws ih =>
    intro md ll first
    simp only [wrapGo]
    by_cases hnl : isNewlineRun w = true
    · simp only [if_pos hnl]
      rw [ih (md ++ String.mk (w.data.take 1) ++ pp),
          ih ("" ++ String.mk (w.data.take 1) ++ pp)]
      simp [strAppendAssoc, strNilAppend]
    · simp only [if_neg hnl]
      by_cases hov : width < glen w + ll ∧ ¬(isPunctWord w = true)
      · simp only [if_pos hov]
        cases hf : first <;> simp only [Bool.false_eq_true, if_false, if_pos]
        · rw [ih (md ++ "\n" ++ pp ++ jsTrimStart w),
              ih ("" ++ "\n" ++ pp ++ jsTrimStart w)]
          simp [strAppendAssoc, strNilAppend]
        · rw [ih (md ++ fp ++ "\n" ++ pp ++ jsTrimStart w),
              ih ("" ++ fp ++ "\n" ++ pp ++ jsTrimStart w)]
          simp [strAppendAssoc, strNilAppend]
      · simp only [if_neg hov]
        cases hf : first <;> simp only [Bool.false_eq_true, if_false, if_pos]
        · rw [ih (md ++ w), ih ("" ++ w)]
          simp [strAppendAssoc, strNilAppend]
        · rw [ih (md ++ fp ++ w), ih ("" ++ fp ++ w)]
          simp [strAppendAssoc, strNilAppend]

/-- Correspondence between the flat wrap loop and its lines mirror: the
text produced from an open current line `cur` is the newline-join of the
mirrored lines. -/
theorem wrapGo_eq_linesJoin (glen : String → Nat) (width : Nat) (fp pp : String) :
    ∀ (ws : List String) (cur : String) (ll : Nat) (first : Bool),
      cur ++ wrapGo glen width fp pp ws "" ll first =
        linesJoin (linesAux glen width fp pp ws cur ll first) := by
  intro ws
  induction ws with
  | nil =>
    intro cur ll first
    simp only [wrapGo, linesAux, linesJoin]
    exact strAppendNil cur
  | cons w ws ih =>
    intro cur ll first
    simp only [wrapGo, linesAux]
    by_cases hnl : isNewlineRun w = true
    · simp only [if_pos hnl]
      rw [linesJoin_cons _ _ (linesAux_ne_nil glen width fp pp ws pp (glen pp) false)]
      rw [← ih pp (glen pp) false]
      rw [wrapGo_md glen width fp pp ws ("" ++ String.mk (w.data.take 1) ++ pp)]
      rw [newlineRunTake w hnl]
      simp [strAppendAssoc, strNilAppend]
    · simp only [if_neg hnl]
      by_cases hov : width < glen w + ll ∧ ¬(isPunctWord w = true)
      · simp only [if_pos hov]
        rw [linesJoin_cons _ _ (linesAux_ne_nil glen width fp pp ws
          (pp ++ jsTrimStart w) (glen pp + glen (jsTrimStart w)) false)]
        rw [← ih (pp ++ jsTrimStart w) (glen pp + glen (jsTrimStart w)) false]
        cases hf : first <;>
          simp only [Bool.false_eq_true, if_false, if_pos] <;>
          rw [wrapGo_md glen width fp pp ws] <;>
          simp [strAppendAssoc, strNilAppend]
      · simp only [if_neg hov]
        cases hf : first <;> simp only [Bool.false_eq_true, if_false, if_pos]
        · rw [← ih (cur ++ w) (ll + glen w) false]
          rw [wrapGo_md glen width fp pp ws ("" ++ w)]
          simp [strAppendAssoc, strNilAppend]
        · rw [← ih (cur ++ fp ++ w) (ll + glen w) false]
          rw [wrapGo_md glen width fp pp ws ("" ++ fp ++ w)]
          simp [strAppendAssoc, strNilAppend]

/-- A trailing glue of punctuation words (each from the word list, each
matching `/^[,.?!]+$/` after trimming), as produced by the
keep-trailing-punctuation rule of the wrap loop. -/
inductive GlueOf (words : List String) : String → Prop
  | nil : GlueOf words ""
  | snoc (g w : String) : GlueOf words g → w ∈ words → isPunctWord w = true →
      GlueOf words (g ++ w)

/-- Admissible base of an emitted line: it fits the width, or it is a bare
prefix (first-line or continuation), or it is the continuation prefix plus
one whole (left-trimmed) word — the only way a line can overflow besides
punctuation glue. -/
def BaseOk (glen : String → Nat) (width : Nat) (fp pp : String)
    (words : List String) (b : String) : Prop :=
  glen b ≤ width ∨ b = fp ∨ b = pp ∨
  (∃ w, w ∈ words ∧ b = pp ++ jsTrimStart w)

/-- Characterization of a line emitted by the wrap loop: an admissible base
followed by (possibly empty) punctuation glue. In particular a line longer
than the width is either a single (never split) word on its prefix or ends
in glued punctuation. -/
def ExcusedLine (glen : String → Nat) (width : Nat) (fp pp : String)
    (words : List String) (l : String) : Prop :=
  ∃ b g, l = b ++ g ∧ GlueOf words g ∧ BaseOk glen width fp pp words b

/-- Every line of the mirror `linesAux` is excused, given the running-line
invariant. `Hadd` states that the grapheme measure is additive on
concatenation (true of the ASCII model; the real segmenter satisfies it on
text without cross-boundary cluster merges). -/
theorem linesAux_excused (glen : String → Nat)
    (Hadd : ∀ a b : String, glen (a ++ b) = glen a + glen b)
    (width : Nat) (fp pp : String) (words : List String) :
    ∀ (ws : List String) (cur : String) (ll : Nat) (first : Bool),
      (∀ w ∈ ws, w ∈ words) →
      ((first = true ∧ cur = "" ∧ ll = glen fp) ∨
       (first = false ∧ ll = glen cur ∧ ExcusedLine glen width fp pp words cur)) →
      ∀ l ∈ linesAux glen width fp pp ws cur ll first,
        ExcusedLine glen width fp pp words l := by
  have hglen0 : glen "" = 0 := by
    have h := Hadd "" ""
    have h2 : ("" : String) ++ "" = "" := rfl
    rw [h2] at h
    omega
  have hempty : ExcusedLine glen width fp pp words "" :=
    ⟨"", "", (strNilAppend "").symm, GlueOf.nil, Or.inl (by omega)⟩
  have hpp : ExcusedLine glen width fp pp words pp :=
    ⟨pp, "", (strAppendNil pp).symm, GlueOf.nil, Or.inr (Or.inr (Or.inl rfl))⟩
  intro ws
  induction ws with
  | nil =>
    intro cur ll first _ hinv l hl
    simp only [linesAux, List.mem_singleton] at hl
    subst hl
    rcases hinv with ⟨_, hcur, _⟩ | ⟨_, _, hex⟩
    · rw [hcur]
      exact hempty
    · exact hex
  | cons w ws ih =>
    intro cur ll first hsub hinv l hl
    have hw : w ∈ words := hsub w (List.mem_cons_self w ws)
    have hsub2 : ∀ x ∈ ws, x ∈ words := fun x hx => hsub x (List.mem_cons_of_mem w hx)
    simp only [linesAux] at hl
    by_cases hnl : isNewlineRun w = true
    · rw [if_pos hnl] at hl
      rcases List.mem_cons.mp hl with rfl | hl2
      · rcases hinv with ⟨_, hcur, _⟩ | ⟨_, _, hex⟩
        · rw [hcur]
          exact hempty
        · exact hex
      · exact ih pp (glen pp) false hsub2 (Or.inr ⟨rfl, rfl, hpp⟩) l hl2
    · rw [if_neg hnl] at hl
      rcases hinv with ⟨hf, hcur, hll⟩ | ⟨hf, hll, hex⟩ <;> subst hf
      · -- still at word index 0: the first prefix gets emitted with this word
        subst hcur
        simp only [if_pos] at hl
        by_cases hov : width < glen w + ll ∧ ¬(isPunctWord w = true)
        · rw [if_pos hov] at hl
          rcases List.mem_cons.mp hl with rfl | hl2
          · exact ⟨"" ++ fp, "", (strAppendNil _).symm, GlueOf.nil,
              Or.inr (Or.inl (strNilAppend fp))⟩
          · exact ih (pp ++ jsTrimStart w) (glen pp + glen (jsTrimStart w)) false hsub2
              (Or.inr ⟨rfl, (Hadd pp (jsTrimStart w)).symm,
                ⟨pp ++ jsTrimStart w, "", (strAppendNil _).symm, GlueOf.nil,
                  Or.inr (Or.inr (Or.inr ⟨w, hw, rfl⟩))⟩⟩) l hl2
        · rw [if_neg hov] at hl
          have hlen : glen (("" ++ fp) ++ w) = glen fp + glen w := by
            rw [Hadd, Hadd, hglen0]
            omega
          have hexnew : ExcusedLine glen width fp pp words (("" ++ fp) ++ w) := by
            rcases Decidable.not_and_iff_or_not.mp hov with hfit | hpunct
            · exact ⟨("" ++ fp) ++ w, "", (strAppendNil _).symm, GlueOf.nil,
                Or.inl (by rw [hlen]; omega)⟩
            · have hp : isPunctWord w = true := by
                by_contra hq
                exact hpunct (fun h => hq h)
              exact ⟨"" ++ fp, "" ++ w,
                (congrArg (("" ++ fp) ++ ·) (strNilAppend w)).symm,
                GlueOf.snoc "" w GlueOf.nil hw hp,
                Or.inr (Or.inl (strNilAppend fp))⟩
          exact ih (("" ++ fp) ++ w) (ll + glen w) false hsub2
            (Or.inr ⟨rfl, by rw [hlen, hll], hexnew⟩) l hl
      · -- continuation: the current line is already excused
        simp only [Bool.false_eq_true, if_false] at hl
        by_cases hov : width < glen w + ll ∧ ¬(isPunctWord w = true)
        · rw [if_pos hov] at hl
          rcases List.mem_cons.mp hl with rfl | hl2
          · exact hex
          · exact ih (pp ++ jsTrimStart w) (glen pp + glen (jsTrimStart w)) false hsub2
              (Or.inr ⟨rfl, (Hadd pp (jsTrimStart w)).symm,
                ⟨pp ++ jsTrimStart w, "", (strAppendNil _).symm, GlueOf.nil,
                  Or.inr (Or.inr (Or.inr ⟨w, hw, rfl⟩))⟩⟩) l hl2
        · rw [if_neg hov] at hl
          have hexnew : ExcusedLine glen width fp pp words (cur ++ w) := by
            rcases Decidable.not_and_iff_or_not.mp hov with hfit | hpunct
            · exact ⟨cur ++ w, "", (strAppendNil _).symm, GlueOf.nil,
                Or.inl (by rw [Hadd]; omega)⟩
            · have hp : isPunctWord w = true := by
                by_contra hq
                exact hpunct (fun h => hq h)
              obtain ⟨b, g, hbg, hg, hb⟩ := hex
              exact ⟨b, g ++ w, by rw [hbg, strAppendAssoc],
                GlueOf.snoc g w hg hw hp, hb⟩
          exact ih (cur ++ w) (ll + glen w) false hsub2
            (Or.inr ⟨rfl, by rw [Hadd, hll], hexnew⟩) l hl

/-- Additivity of the ASCII grapheme model under concatenation. -/
theorem asciiGlenAdd (a b : String) :
    asciiGlen (a ++ b) = asciiGlen a + asciiGlen b := by
  cases a with
  | mk d1 =>
    cases b with
    | mk d2 =>
      show (String.mk (d1 ++ d2)).length = _
      simp [asciiGlen, String.length]

/-- C8 (amended): the wrap loop appends to the accumulator the
newline-join of its mirrored lines, and every emitted line is an
admissible base plus punctuation glue: it fits the width, or it is a bare
prefix, or the continuation prefix plus one whole never-split word, in
each case followed by a possibly empty run of glued punctuation words.
(A line may therefore exceed the width not only through a single overlong
word but also through its block prefix or through trailing punctuation
glue.) -/
theorem c8_wrapped_lines_characterized (glen : String → Nat)
    (Hadd : ∀ a b : String, glen (a ++ b) = glen a + glen b)
    (width : Nat) (fp pp : String) (words : List String) (md : String) :
    wrapGo glen width fp pp words md (glen fp) true =
      md ++ linesJoin (linesAux glen width fp pp words "" (glen fp) true) ∧
    ∀ l ∈ linesAux glen width fp pp words "" (glen fp) true,
      ExcusedLine glen width fp pp words l := by
  constructor
  · rw [wrapGo_md glen width fp pp words md (glen fp) true]
    rw [← wrapGo_eq_linesJoin glen width fp pp words "" (glen fp) true]
    rw [strNilAppend]
  · exact fun l hl =>
      linesAux_excused glen Hadd width fp pp words words "" (glen fp) true
        (fun w h => h) (Or.inl ⟨rfl, rfl, rfl⟩) l hl

/-- C8 counterexample: at width 4 the wrap loop glues the trailing
punctuation word `,` onto the already-full line `abcd`, emitting the
single line `abcd,` of grapheme length 5 > 4 although the line holds two
words and each word alone fits the width — refuting "no emitted line
exceeds the width except a line whose single word itself exceeds it".
The word list is exactly the segmentation of the buffer `abcd,`
(reachable verbatim inside `PRE`), and `flushLine` emits the same
overlong line. -/
theorem c8_counterexample :
    asciiSplitWords "abcd," = ["abcd", ","] ∧
    wrapGo asciiGlen 4 "" "" ["abcd", ","] "" (asciiGlen "") true = "abcd," ∧
    linesAux asciiGlen 4 "" "" ["abcd", ","] "" (asciiGlen "") true = ["abcd,"] ∧
    flushLine asciiGlen asciiSplitWords 4 ["HTML", "BODY"] [] "" "abcd," = "abcd,\n" ∧
    4 < asciiGlen "abcd," ∧ asciiGlen "abcd" ≤ 4 ∧ asciiGlen "," ≤ 4 := by decide

/-- Witness for C8 (amended) at the ASCII grapheme model and a concrete
word list. -/
theorem c8_wrapped_lines_characterized_witness :
    wrapGo asciiGlen 4 "" "" ["abcd", ","] "" (asciiGlen "") true =
      "" ++ linesJoin (linesAux asciiGlen 4 "" "" ["abcd", ","] "" (asciiGlen "") true) ∧
    ∀ l ∈ linesAux asciiGlen 4 "" "" ["abcd", ","] "" (asciiGlen "") true,
      ExcusedLine asciiGlen 4 "" "" ["abcd", ","] l :=
  c8_wrapped_lines_characterized asciiGlen asciiGlenAdd 4 "" "" ["abcd", ","] ""

/-!
Claim C10 — the olCounts invariant. The flat list is abstracted as a list
of (kind, counter) pairs via `pairsFlat`; the per-token `olStep` is
mirrored at pair level by `pairStep` and at kind level (the scanner's open
UL/OL elements) by `stackStep`.
-/

/-- Flatten a list of (kind, counter) pairs into the interleaved
sequence the source stores in `olCounts`. -/
def pairsFlat (ps : List (String × Nat)) : List OlVal :=
  ps.flatMap fun p => [.s p.1, .n p.2]

/-- Well-formedness of the flat sequence: it is the interleaving of pairs
whose kind is `"decimal"` or `"-"` — in particular it has even length and
alternates kind strings at even indices with counters at odd indices. -/
def WfOl (l : List OlVal) : Prop :=
  ∃ ps : List (String × Nat), l = pairsFlat ps ∧
    ∀ p ∈ ps, p.1 = "decimal" ∨ p.1 = "-"

/-- Pair-level mirror of `olStep`. -/
def pairStep (ps : List (String × Nat)) (t : Token) : List (String × Nat) :=
  if t.name = some "OL" then
    (if t.isCloser then ps.dropLast else ps ++ [("decimal", 0)])
  else if t.name = some "UL" then
    (if t.isCloser then ps.dropLast else ps ++ [("-", 0)])
  else if t.name = some "LI" then
    (if t.isCloser then ps
     else
       match ps.getLast? with
       | some (k, c) => ps.dropLast ++ [(k, c + 1)]
       | none => ps)
  else ps

/-- Kind-level mirror: the stack of open list kinds a conformant scanner
keeps, driven by the same tokens. -/
def stackStep (st : List String) (t : Token) : List String :=
  if t.name = some "OL" then
    (if t.isCloser then st.dropLast else st ++ ["decimal"])
  else if t.name = some "UL" then
    (if t.isCloser then st.dropLast else st ++ ["-"])
  else st

/-- The stack of open list kinds after a token prefix. -/
def openListStack (ts : List Token) : List String :=
  ts.foldl stackStep []

/-- Flattening commutes with concatenation. -/
theorem pairsFlat_append (ps qs : List (String × Nat)) :
    pairsFlat (ps ++ qs) = pairsFlat ps ++ pairsFlat qs := by
  simp [pairsFlat]

/-- Flattening a snoc produces the two trailing entries. -/
theorem pairsFlat_concat (qs : List (String × Nat)) (k : String) (c : Nat) :
    pairsFlat (qs ++ [(k, c)]) = pairsFlat qs ++ [.s k, .n c] := by
  rw [pairsFlat_append]
  rfl

/-- Length of the flattening. -/
theorem pairsFlat_length (ps : List (String × Nat)) :
    (pairsFlat ps).length = 2 * ps.length := by
  induction ps with
  | nil => rfl
  | cons p ps ih =>
    simp only [pairsFlat, List.flatMap_cons] at ih ⊢
    simp [ih]
    omega

/-- Dropping the last two flat entries drops the last pair. -/
theorem pairsFlat_dropLast2 (ps : List (String × Nat)) :
    (pairsFlat ps).dropLast.dropLast = pairsFlat ps.dropLast := by
  rcases List.eq_nil_or_concat ps with h | ⟨qs, p, h⟩
  · subst h
    rfl
  · subst h
    rw [List.concat_eq_append, pairsFlat_concat]
    have h2 : pairsFlat qs ++ [OlVal.s p.1, OlVal.n p.2] =
        (pairsFlat qs ++ [OlVal.s p.1]) ++ [OlVal.n p.2] := by
      rw [List.append_assoc]
      rfl
    rw [h2, List.dropLast_concat, List.dropLast_concat, List.dropLast_concat]

/-- The kind string at flat index `2 * j` is the kind of pair `j`. -/
theorem olStringAt_pairsFlat (ps : List (String × Nat)) :
    ∀ j, j < ps.length →
      olStringAt (pairsFlat ps) (2 * j) = some (ps.getD j ("", 0)).1 := by
  induction ps with
  | nil => intro j hj; simp at hj
  | cons p ps ih =>
    intro j hj
    cases j with
    | zero => rfl
    | succ j =>
      have h2 : 2 * (j + 1) = (2 * j) + 1 + 1 := by omega
      rw [h2]
      show olStringAt (pairsFlat ps) (2 * j) = _
      rw [ih j (by simpa using hj)]
      rfl

/-- Membership of the `getLast?` element. -/
theorem memOfGetLastEq {α : Type} (l : List α) (a : α) (h : l.getLast? = some a) :
    a ∈ l := by
  have hm : a ∈ l.getLast? := by
    rw [Option.mem_def]
    exact h
  obtain ⟨hne, heq⟩ := List.mem_getLast?_eq_getLast hm
  rw [heq]
  exact List.getLast_mem hne

/-- `olStep` commutes with the pair abstraction. -/
theorem olStep_pairs (t : Token) (ps : List (String × Nat)) :
    olStep t (pairsFlat ps) = pairsFlat (pairStep ps t) := by
  unfold olStep pairStep
  by_cases h1 : t.name = some "OL"
  · rw [if_pos h1, if_pos h1]
    by_cases hc : t.isCloser = true
    · rw [if_pos hc, if_pos hc, pairsFlat_dropLast2]
    · rw [if_neg hc, if_neg hc, pairsFlat_concat]
  · rw [if_neg h1, if_neg h1]
    by_cases h2 : t.name = some "UL"
    · rw [if_pos h2, if_pos h2]
      by_cases hc : t.isCloser = true
      · rw [if_pos hc, if_pos hc, pairsFlat_dropLast2]
      · rw [if_neg hc, if_neg hc, pairsFlat_concat]
    · rw [if_neg h2, if_neg h2]
      by_cases h3 : t.name = some "LI"
      · rw [if_pos h3, if_pos h3]
        by_cases hc : t.isCloser = true
        · rw [if_pos hc, if_pos hc]
        · rw [if_neg hc, if_neg hc]
          rcases List.eq_nil_or_concat ps with h | ⟨qs, p, h⟩
          · subst h
            rfl
          · subst h
            rw [List.concat_eq_append]
            obtain ⟨k, c⟩ := p
            rw [pairsFlat_concat, List.getLast?_concat]
            have hlen : 0 < (pairsFlat qs ++ [OlVal.s k, OlVal.n c]).length := by
              simp
            rw [if_pos hlen]
            have hsplit : pairsFlat qs ++ [OlVal.s k, OlVal.n c] =
                (pairsFlat qs ++ [OlVal.s k]) ++ [OlVal.n c] := by
              rw [List.append_assoc]
              rfl
            rw [hsplit, List.dropLast_concat]
            have hlast :
                ((pairsFlat qs ++ [OlVal.s k]) ++ [OlVal.n c]).getLastD (OlVal.n 0) =
                  OlVal.n c := by
              simp
            rw [hlast, List.dropLast_concat]
            show pairsFlat qs ++ [OlVal.s k] ++ [OlVal.n (c + 1)] =
              pairsFlat (qs ++ [(k, c + 1)])
            rw [pairsFlat_concat, List.append_assoc]
            rfl
      · rw [if_neg h3, if_neg h3]

/-- The olCounts component of the loop is the fold of `olStep`. -/
theorem runLoop_olCounts (glen : String → Nat) (splitW : String → List String)
    (width : Nat) :
    ∀ (ts : List Token) (s : ConvState),
      (runLoop glen splitW width ts s).olCounts =
        ts.foldl (fun ol t => olStep t ol) s.olCounts := by
  intro ts
  induction ts with
  | nil => intro s; rfl
  | cons t ts ih =>
    intro s
    simp only [runLoop, List.foldl] at ih ⊢
    rw [ih, (processToken_effects glen splitW width t s).2.2]

/-- Folding `olStep` over a flat pair sequence stays within the pair
abstraction. -/
theorem foldl_olStep_pairs :
    ∀ (ts : List Token) (ps : List (String × Nat)),
      ts.foldl (fun ol t => olStep t ol) (pairsFlat ps) =
        pairsFlat (ts.foldl pairStep ps) := by
  intro ts
  induction ts with
  | nil => intro ps; rfl
  | cons t ts ih =>
    intro ps
    simp only [List.foldl]
    rw [olStep_pairs, ih]

/-- `pairStep` preserves the kind constraint. -/
theorem pairStep_kinds (ps : List (String × Nat)) (t : Token)
    (h : ∀ p ∈ ps, p.1 = "decimal" ∨ p.1 = "-") :
    ∀ p ∈ pairStep ps t, p.1 = "decimal" ∨ p.1 = "-" := by
  unfold pairStep
  split_ifs <;> intro p hp
  · exact h p (List.dropLast_subset ps hp)
  · rcases List.mem_append.mp hp with hm | hm
    · exact h p hm
    · simp only [List.mem_singleton] at hm
      subst hm
      exact Or.inl rfl
  · exact h p (List.dropLast_subset ps hp)
  · rcases List.mem_append.mp hp with hm | hm
    · exact h p hm
    · simp only [List.mem_singleton] at hm
      subst hm
      exact Or.inr rfl
  · exact h p hp
  · rcases hgl : ps.getLast? with _ | q
    · rw [hgl] at hp
      exact h p hp
    · rw [hgl] at hp
      obtain ⟨k, c⟩ := q
      rcases List.mem_append.mp hp with hm | hm
      · exact h p (List.dropLast_subset ps hm)
      · simp only [List.mem_singleton] at hm
        subst hm
        exact h (k, c) (memOfGetLastEq ps (k, c) hgl)
  · exact h p hp

/-- The kinds of the pair stack mirror the scanner-side kind stack. -/
theorem pairStep_fst (ps : List (String × Nat)) (t : Token) :
    (pairStep ps t).map Prod.fst = stackStep (ps.map Prod.fst) t := by
  unfold pairStep stackStep
  by_cases h1 : t.name = some "OL"
  · rw [if_pos h1, if_pos h1]
    by_cases hc : t.isCloser = true
    · rw [if_pos hc, if_pos hc, List.map_dropLast]
    · rw [if_neg hc, if_neg hc]
      simp
  · rw [if_neg h1, if_neg h1]
    by_cases h2 : t.name = some "UL"
    · rw [if_pos h2, if_pos h2]
      by_cases hc : t.isCloser = true
      · rw [if_pos hc, if_pos hc, List.map_dropLast]
      · rw [if_neg hc, if_neg hc]
        simp
    · rw [if_neg h2, if_neg h2]
      by_cases h3 : t.name = some "LI"
      · rw [if_pos h3]
        by_cases hc : t.isCloser = true
        · rw [if_pos hc]
        · rw [if_neg hc]
          rcases List.eq_nil_or_concat ps with h | ⟨qs, p, h⟩
          · subst h
            rfl
          · subst h
            rw [List.concat_eq_append]
            obtain ⟨k, c⟩ := p
            rw [List.getLast?_concat]
            show ((qs ++ [(k, c)]).dropLast ++ [(k, c + 1)]).map Prod.fst =
              ((qs ++ [(k, c)]).map Prod.fst)
            rw [List.dropLast_concat]
            simp
      · rw [if_neg h3]

/-- The pair stack's kinds after any prefix equal the open-list kind
stack. -/
theorem foldl_pairStep_fst :
    ∀ (ts : List Token) (ps : List (String × Nat)),
      (ts.foldl pairStep ps).map Prod.fst = ts.foldl stackStep (ps.map Prod.fst) := by
  intro ts
  induction ts with
  | nil => intro ps; rfl
  | cons t ts ih =>
    intro ps
    simp only [List.foldl]
    rw [ih, pairStep_fst]

/-- Kind constraint holds along the whole fold. -/
theorem foldl_pairStep_kinds :
    ∀ (ts : List Token) (ps : List (String × Nat)),
      (∀ p ∈ ps, p.1 = "decimal" ∨ p.1 = "-") →
      ∀ p ∈ ts.foldl pairStep ps, p.1 = "decimal" ∨ p.1 = "-" := by
  intro ts
  induction ts with
  | nil => intro ps h; exact h
  | cons t ts ih =>
    intro ps h
    exact ih (pairStep ps t) (pairStep_kinds ps t h)

/-- The `listDepth` value the breadcrumb walk holds at each `LI` entry:
the number of `OL`/`UL` entries seen before it (mirroring the `OL`/`UL`
arm incrementing `listDepth` and the `LI` arm reading it). -/
def liDepthsAux : Nat → List String → List Nat
  | _, [] => []
  | d, t :: r =>
    if t = "OL" ∨ t = "UL" then liDepthsAux (d + 1) r
    else if t = "LI" then d :: liDepthsAux d r
    else liDepthsAux d r

/-- Depths of the `LI` entries of a sliced breadcrumb path. -/
def liDepths (bc : List String) : List Nat :=
  liDepthsAux 0 bc

/-- All `LI` lookups of a flush over these breadcrumbs read a kind string
`"decimal"` or `"-"` from the list context (so `listMarker` is never called
into its fall-through branch). -/
def liLookupsOk (ol : List OlVal) (bc2 : List String) : Prop :=
  ∀ d ∈ liDepths bc2, 1 ≤ d →
    olStringAt ol ((d - 1) * 2) = some "decimal" ∨
    olStringAt ol ((d - 1) * 2) = some "-"

/-- Modelled from the spec: breadcrumbs are the ordered ancestor tag names
at the current token, so a token never reports more enclosing `LI` list
levels than list elements opened so far — each `LI` entry in a token's
sliced breadcrumbs sits under at most as many `UL`/`OL` ancestors as the
scanner has opened and not closed before that token (and likewise for the
final breadcrumbs at end of input). -/
def BreadcrumbsConsistent (scn : Scanner) : Prop :=
  (∀ i, i < scn.tokens.length →
    ∀ d ∈ liDepths ((scn.tokens.getD i default).breadcrumbs.drop 2),
      d ≤ (openListStack (scn.tokens.take i)).length) ∧
  (∀ d ∈ liDepths (scn.finalBreadcrumbs.drop 2),
      d ≤ (openListStack scn.tokens).length)

/-- C10: at every point of a conversion the list-context sequence is the
interleaving of (kind, counter) pairs — even length, kind strings
`"decimal"`/`"-"` at even indices, counters at odd indices — counters are
changed by `LI` openers only (all other tokens leave `olCounts` untouched
except the `OL`/`UL` push/pop); and against a scanner with consistent
breadcrumbs every `LI` lookup of every flush reads kind `"decimal"` or
`"-"`, while `listMarker` returns a nonempty marker exactly for those two
kinds — its fall-through `""` branch is unreachable during conversion. -/
theorem c10_olcounts_invariant (glen : String → Nat)
    (splitW : String → List String) (width : Nat) (baseUrl : String)
    (scn : Scanner) (H : BreadcrumbsConsistent scn) :
    (∀ n : Nat, WfOl ((runLoop glen splitW width (scn.tokens.take n)
        (initState baseUrl)).olCounts)) ∧
    (∀ (t : Token) (s : ConvState),
      t.name ≠ some "OL" → t.name ≠ some "UL" → t.name ≠ some "LI" →
      (processToken glen splitW width t s).olCounts = s.olCounts) ∧
    (∀ i, i < scn.tokens.length →
      liLookupsOk ((runLoop glen splitW width (scn.tokens.take i)
          (initState baseUrl)).olCounts)
        ((scn.tokens.getD i default).breadcrumbs.drop 2)) ∧
    liLookupsOk ((runLoop glen splitW width scn.tokens (initState baseUrl)).olCounts)
      (scn.finalBreadcrumbs.drop 2) ∧
    (∀ c : Nat, listMarker "decimal" c ≠ "" ∧ listMarker "-" c ≠ "" ∧
      ∀ k, k ≠ "decimal" → k ≠ "-" → listMarker k c = "") := by
  have hol : ∀ ts : List Token,
      (runLoop glen splitW width ts (initState baseUrl)).olCounts =
        pairsFlat (ts.foldl pairStep []) := by
    intro ts
    rw [runLoop_olCounts]
    show ts.foldl (fun ol t => olStep t ol) (pairsFlat []) = _
    rw [foldl_olStep_pairs]
  have hkinds : ∀ ts : List Token,
      ∀ p ∈ ts.foldl pairStep ([] : List (String × Nat)),
        p.1 = "decimal" ∨ p.1 = "-" := by
    intro ts
    exact foldl_pairStep_kinds ts [] (by intro p hp; simp at hp)
  have hlook : ∀ (ts : List Token) (bc2 : List String),
      (∀ d ∈ liDepths bc2, d ≤ (openListStack ts).length) →
      liLookupsOk ((runLoop glen splitW width ts (initState baseUrl)).olCounts) bc2 := by
    intro ts bc2 hbound d hd hd1
    have hb := hbound d hd
    have hfst : (ts.foldl pairStep []).map Prod.fst = openListStack ts := by
      have := foldl_pairStep_fst ts []
      simpa [openListStack] using this
    have hlen : (ts.foldl pairStep []).length = (openListStack ts).length := by
      rw [← hfst, List.length_map]
    have hj : d - 1 < (ts.foldl pairStep []).length := by omega
    have hstr := olStringAt_pairsFlat (ts.foldl pairStep []) (d - 1) hj
    have hidx : (d - 1) * 2 = 2 * (d - 1) := by omega
    rw [hol ts, hidx, hstr]
    have hmem : (ts.foldl pairStep []).getD (d - 1) ("", 0) ∈ ts.foldl pairStep [] := by
      rw [List.getD_eq_getElem?_getD, List.getElem?_eq_getElem hj]
      exact List.getElem_mem hj
    rcases hkinds ts _ hmem with hk | hk
    · exact Or.inl (by rw [hk])
    · exact Or.inr (by rw [hk])
  refine ⟨?_, ?_, ?_, ?_, ?_⟩
  · intro n
    exact ⟨(scn.tokens.take n).foldl pairStep [], hol _, hkinds _⟩
  · intro t s h1 h2 h3
    rw [(processToken_effects glen splitW width t s).2.2]
    unfold olStep
    rw [if_neg h1, if_neg h2, if_neg h3]
  · intro i hi
    exact hlook _ _ (H.1 i hi)
  · exact hlook _ _ H.2
  · intro c
    refine ⟨?_, ?_, ?_⟩
    · intro h
      unfold listMarker at h
      rw [if_neg (by decide), if_pos rfl] at h
      have hlen := congrArg String.length h
      rw [String.length_append] at hlen
      have h1 : ("." : String).length = 1 := rfl
      have h0 : ("" : String).length = 0 := rfl
      omega
    · intro h
      unfold listMarker at h
      rw [if_pos rfl] at h
      simpa using congrArg String.data h
    · intro k hk1 hk2
      unfold listMarker
      rw [if_neg hk1, if_neg hk2]

/-- Witness for C10: the invariant at a concrete consistent scanner run
(the three-sibling-lists stream). -/
theorem c10_olcounts_invariant_witness :
    BreadcrumbsConsistent (mkScanner c2Tokens false) ∧
    ((∀ n : Nat, WfOl ((runLoop asciiGlen asciiSplitWords 80
        ((mkScanner c2Tokens false).tokens.take n) (initState "")).olCounts)) ∧
    (∀ (t : Token) (s : ConvState),
      t.name ≠ some "OL" → t.name ≠ some "UL" → t.name ≠ some "LI" →
      (processToken asciiGlen asciiSplitWords 80 t s).olCounts = s.olCounts) ∧
    (∀ i, i < (mkScanner c2Tokens false).tokens.length →
      liLookupsOk ((runLoop asciiGlen asciiSplitWords 80
          ((mkScanner c2Tokens false).tokens.take i) (initState "")).olCounts)
        (((mkScanner c2Tokens false).tokens.getD i default).breadcrumbs.drop 2)) ∧
    liLookupsOk ((runLoop asciiGlen asciiSplitWords 80
        (mkScanner c2Tokens false).tokens (initState "")).olCounts)
      ((mkScanner c2Tokens false).finalBreadcrumbs.drop 2) ∧
    (∀ c : Nat, listMarker "decimal" c ≠ "" ∧ listMarker "-" c ≠ "" ∧
      ∀ k, k ≠ "decimal" → k ≠ "-" → listMarker k c = "")) :=
  ⟨by unfold BreadcrumbsConsistent; decide,
   c10_olcounts_invariant asciiGlen asciiSplitWords 80 ""
     (mkScanner c2Tokens false) (by unfold BreadcrumbsConsistent; decide)⟩
